import Mathlib

/-!
A shallow embedding of the protocol-negotiation core of the `simple-socks5`
crate (a SOCKS5 server, RFC 1928 / RFC 1929), together with theorems checking
the crate specification against the code.

Byte buffers are modelled as `List Nat` with every element below 256
(Rust slices `&[u8]`); Rust `String` values are modelled by their UTF-8 byte
lists.  Fallible Rust functions returning `Result` are modelled with `Except`;
the two decoders that can index out of bounds (and hence panic in Rust) return
a dedicated result type with an explicit `panicked` outcome.
-/

set_option linter.unnecessarySeqFocus false

namespace Socks5

/-- Predicate stating that a list of naturals is a list of bytes (u8). -/
def IsBytes (l : List Nat) : Prop := ∀ b ∈ l, b < 256

instance (l : List Nat) : Decidable (IsBytes l) := by
  unfold IsBytes; infer_instance

deriving instance DecidableEq for Except

/-- Embedding of `SocksError` from `src/error.rs`. -/
inductive SocksError : Type where
  | UnsupportedVersion (b : Nat)
  | VersionMessageTooShort
  | IncompleteVersionMessage
  | UnknownMethod (b : Nat)
  | UnsupportedAuthVersion (b : Nat)
  | AuthMessageTooShort
  | AuthFailed (msg : String)
  | InvalidAddressType (b : Nat)
  | InvalidDomain
  | ConnRequestTooShort
  | UnsupportedCommand (b : Nat)
  | ReplyTooShort
  | Io
  deriving DecidableEq, Repr

/-- Embedding of `FixedMethod` from `src/msg/method.rs`. -/
inductive FixedMethod : Type where
  | NoAuth
  | GssApi
  | UsePass
  | NoAcceptable
  deriving DecidableEq, Repr

/-- Embedding of `Method` from `src/msg/method.rs`. -/
inductive Method : Type where
  | Fixed (f : FixedMethod)
  | IanaAssigned (b : Nat)
  | Private (b : Nat)
  deriving DecidableEq, Repr

/-- Embedding of `FixedMethod::to_u8` (the `repr(u8)` discriminants). -/
def FixedMethod.to_u8 : FixedMethod → Nat
  | .NoAuth => 0x00
  | .GssApi => 0x01
  | .UsePass => 0x02
  | .NoAcceptable => 0xFF

/-- Embedding of `Method::to_u8` from `src/msg/method.rs`. -/
def Method.to_u8 : Method → Nat
  | .Fixed f => f.to_u8
  | .IanaAssigned b => b
  | .Private b => b

/-- Embedding of `Method::from_u8` from `src/msg/method.rs`.  The Rust match
is total over the `u8` domain `0 ..= 255`; the final arm below is outside the
`u8` domain and exists only to make the Lean function total over `Nat`. -/
def Method.from_u8 (byte : Nat) : Except SocksError Method :=
  if byte = 0x00 then .ok (.Fixed .NoAuth)
  else if byte = 0x01 then .ok (.Fixed .GssApi)
  else if byte = 0x02 then .ok (.Fixed .UsePass)
  else if byte = 0xFF then .ok (.Fixed .NoAcceptable)
  else if 0x03 ≤ byte ∧ byte ≤ 0x7F then .ok (.IanaAssigned byte)
  else if 0x80 ≤ byte ∧ byte ≤ 0xFE then .ok (.Private byte)
  else .error (.UnknownMethod byte)

/-- Embedding of `VersionMessage` from `src/msg/message.rs`. -/
structure VersionMessage : Type where
  ver : Nat
  methods : List Method
  deriving DecidableEq, Repr

/-- Embedding of `VersionMessage::try_from(&[u8])` from `src/msg/message.rs`.
Matching two leading bytes is the `bytes.len() < 2` check; `rest.take b1` is
the slice `bytes[2 .. 2 + nmethods]` and `List.mapM` is the push loop with
the `?` operator on `Method::from_u8`. -/
def VersionMessage.tryFrom : List Nat → Except SocksError VersionMessage
  | b0 :: b1 :: rest =>
    if b0 ≠ 0x05 then .error (.UnsupportedVersion b0)
    else if rest.length < b1 then .error .IncompleteVersionMessage
    else do
      let methods ← (rest.take b1).mapM Method.from_u8
      .ok ⟨b0, methods⟩
  | _ => .error .VersionMessageTooShort

/-- Embedding of `MethodSelection` from `src/msg/message.rs`. -/
structure MethodSelection : Type where
  ver : Nat
  method : Method
  deriving DecidableEq, Repr

/-- Embedding of `MethodSelection::new`. -/
def MethodSelection.new (m : Method) : MethodSelection := ⟨0x05, m⟩

/-- Embedding of `MethodSelection::to_bytes`. -/
def MethodSelection.to_bytes (s : MethodSelection) : List Nat :=
  [s.ver, s.method.to_u8]

/-- Whether a byte is a UTF-8 continuation byte (`0x80 ..= 0xBF`). -/
def isCont (b : Nat) : Bool := 0x80 ≤ b ∧ b ≤ 0xBF

/-- Lower bound for the second byte of a multi-byte UTF-8 sequence, given the
leading byte (RFC 3629 table, as enforced by `String::from_utf8`). -/
def utf8SecondLo (b1 : Nat) : Nat :=
  if b1 = 0xE0 then 0xA0 else if b1 = 0xF0 then 0x90 else 0x80

/-- Upper bound for the second byte of a multi-byte UTF-8 sequence, given the
leading byte (RFC 3629 table, as enforced by `String::from_utf8`). -/
def utf8SecondHi (b1 : Nat) : Nat :=
  if b1 = 0xED then 0x9F else if b1 = 0xF4 then 0x8F else 0xBF

/-- UTF-8 validity of a byte list (RFC 3629): the check performed by Rust
`String::from_utf8`, which the crate uses for usernames and passwords. -/
def utf8Valid : List Nat → Bool
  | [] => true
  | b1 :: rest =>
    if b1 ≤ 0x7F then utf8Valid rest
    else if 0xC2 ≤ b1 ∧ b1 ≤ 0xDF then
      match rest with
      | b2 :: rest2 => if isCont b2 then utf8Valid rest2 else false
      | [] => false
    else if 0xE0 ≤ b1 ∧ b1 ≤ 0xEF then
      match rest with
      | b2 :: rest2 =>
        if utf8SecondLo b1 ≤ b2 ∧ b2 ≤ utf8SecondHi b1 then
          match rest2 with
          | b3 :: rest3 => if isCont b3 then utf8Valid rest3 else false
          | [] => false
        else false
      | [] => false
    else if 0xF0 ≤ b1 ∧ b1 ≤ 0xF4 then
      match rest with
      | b2 :: rest2 =>
        if utf8SecondLo b1 ≤ b2 ∧ b2 ≤ utf8SecondHi b1 then
          match rest2 with
          | b3 :: rest3 =>
            if isCont b3 then
              match rest3 with
              | b4 :: rest4 => if isCont b4 then utf8Valid rest4 else false
              | [] => false
            else false
          | [] => false
        else false
      | [] => false
    else false

/-- UTF-8 bytes of the replacement character U+FFFD, which Rust
`String::from_utf8_lossy` substitutes for ill-formed input. -/
def replacementChar : List Nat := [0xEF, 0xBF, 0xBD]

/-- One step of lossy UTF-8 decoding at lead byte `b1` with remaining input
`rest`: returns the emitted bytes (the well-formed scalar encoding copied
verbatim, or the U+FFFD replacement for the maximal subpart of an ill-formed
subsequence) and the total number of input bytes consumed, counting `b1`. -/
def utf8Step (b1 : Nat) (rest : List Nat) : List Nat × Nat :=
  if b1 ≤ 0x7F then ([b1], 1)
  else if 0xC2 ≤ b1 ∧ b1 ≤ 0xDF then
    match rest with
    | b2 :: _ => if isCont b2 then ([b1, b2], 2) else (replacementChar, 1)
    | [] => (replacementChar, 1)
  else if 0xE0 ≤ b1 ∧ b1 ≤ 0xEF then
    match rest with
    | b2 :: rest2 =>
      if utf8SecondLo b1 ≤ b2 ∧ b2 ≤ utf8SecondHi b1 then
        match rest2 with
        | b3 :: _ => if isCont b3 then ([b1, b2, b3], 3) else (replacementChar, 2)
        | [] => (replacementChar, 2)
      else (replacementChar, 1)
    | [] => (replacementChar, 1)
  else if 0xF0 ≤ b1 ∧ b1 ≤ 0xF4 then
    match rest with
    | b2 :: rest2 =>
      if utf8SecondLo b1 ≤ b2 ∧ b2 ≤ utf8SecondHi b1 then
        match rest2 with
        | b3 :: rest3 =>
          if isCont b3 then
            match rest3 with
            | b4 :: _ =>
              if isCont b4 then ([b1, b2, b3, b4], 4) else (replacementChar, 3)
            | [] => (replacementChar, 3)
          else (replacementChar, 2)
        | [] => (replacementChar, 2)
      else (replacementChar, 1)
    | [] => (replacementChar, 1)
  else (replacementChar, 1)

/-- Embedding of Rust `String::from_utf8_lossy` (result taken as its UTF-8
byte list): well-formed scalar encodings are copied verbatim; each maximal
subpart of an ill-formed subsequence is replaced by U+FFFD, following the
Unicode substitution recommendation that the Rust standard library
implements.  The crate uses this for domain names. -/
def utf8Lossy : List Nat → List Nat
  | [] => []
  | b1 :: rest =>
    (utf8Step b1 rest).1 ++ utf8Lossy (rest.drop ((utf8Step b1 rest).2 - 1))
termination_by l => l.length
decreasing_by simp [List.length_drop]; omega

set_option maxHeartbeats 2000000 in
/-- On a valid list, one lossy step copies the scalar encoding verbatim and
leaves a valid remainder. -/
theorem utf8Step_of_valid (b1 : Nat) (rest : List Nat)
    (h : utf8Valid (b1 :: rest) = true) :
    (utf8Step b1 rest).1 = b1 :: rest.take ((utf8Step b1 rest).2 - 1) ∧
      utf8Valid (rest.drop ((utf8Step b1 rest).2 - 1)) = true := by
  unfold utf8Valid at h
  unfold utf8Step
  rcases rest with _ | ⟨b2, _ | ⟨b3, _ | ⟨b4, rest4⟩⟩⟩ <;>
    split_ifs at h ⊢ <;> simp_all

/-- Lossy UTF-8 decoding is the identity on valid UTF-8 byte lists (Rust:
`String::from_utf8_lossy` borrows the input unchanged when it is valid). -/
theorem utf8Lossy_of_valid : ∀ l : List Nat, utf8Valid l = true → utf8Lossy l = l := by
  intro l
  induction l using utf8Lossy.induct with
  | case1 => intro _; rw [utf8Lossy]
  | case2 b1 rest ih =>
    intro h
    obtain ⟨h1, h2⟩ := utf8Step_of_valid b1 rest h
    rw [utf8Lossy, h1, ih h2]
    simp [List.take_append_drop]

/-- Embedding of `AuthRequest` from `src/auth/request.rs`.  The Rust struct
holds `String` fields; they are modelled by their UTF-8 byte lists. -/
structure AuthRequest : Type where
  ver : Nat
  uname : List Nat
  passwd : List Nat
  deriving DecidableEq, Repr

/-- Embedding of `AuthRequest::try_from(&[u8])` from `src/auth/request.rs`.
Matching two leading bytes is the `bytes.len() < 2` check; with
`rest = bytes[2 ..]`, the Rust length tests `bytes.len() < 2 + ulen + 1` and
`bytes.len() < plen_index + 1 + plen` become `rest.length < ulen + 1` and
`rest.length < ulen + 1 + plen`; `bytes[plen_index]` is `rest.getD ulen 0`,
in bounds because the first length test passed; `String::from_utf8` is the
strict `utf8Valid` check on the exact subslices. -/
def AuthRequest.tryFrom : List Nat → Except SocksError AuthRequest
  | b0 :: b1 :: rest =>
    if b0 ≠ 0x01 then .error (.UnsupportedAuthVersion b0)
    else if rest.length < b1 + 1 then
      .error (.AuthFailed "truncated before username")
    else
      let uname := rest.take b1
      if utf8Valid uname then
        let plen := rest.getD b1 0
        if rest.length < b1 + 1 + plen then
          .error (.AuthFailed "truncated before password")
        else
          let passwd := (rest.drop (b1 + 1)).take plen
          if utf8Valid passwd then .ok ⟨b0, uname, passwd⟩
          else .error (.AuthFailed "invalid UTF-8 in password")
      else .error (.AuthFailed "invalid UTF-8 in username")
  | _ => .error .AuthMessageTooShort

/-- Embedding of `AuthStatus` from `src/auth/reply.rs`. -/
inductive AuthStatus : Type where
  | Success
  | Failure
  deriving DecidableEq, Repr

/-- Embedding of the `repr(u8)` discriminants of `AuthStatus`. -/
def AuthStatus.to_u8 : AuthStatus → Nat
  | .Success => 0x00
  | .Failure => 0x01

/-- Embedding of `AuthReply` from `src/auth/reply.rs`. -/
structure AuthReply : Type where
  ver : Nat
  status : AuthStatus
  deriving DecidableEq, Repr

/-- Embedding of `AuthReply::new`. -/
def AuthReply.new (status : AuthStatus) : AuthReply := ⟨0x01, status⟩

/-- Embedding of `AuthReply::to_bytes`. -/
def AuthReply.to_bytes (r : AuthReply) : List Nat := [r.ver, r.status.to_u8]

/-- Embedding of `AddrPort` from `src/parse.rs`.  `Ipv4Addr` is modelled by
its four octets, `Ipv6Addr` by its eight 16-bit segments (the arguments of
`Ipv6Addr::new`), and the domain `String` by its byte list. -/
inductive AddrPort : Type where
  | V4 (o0 o1 o2 o3 : Nat) (port : Nat)
  | V6 (s0 s1 s2 s3 s4 s5 s6 s7 : Nat) (port : Nat)
  | Domain (name : List Nat) (port : Nat)
  deriving DecidableEq, Repr

/-- Embedding of `u16::from_be_bytes([hi, lo])`: the big-endian value. -/
def u16FromBeBytes (hi lo : Nat) : Nat := 256 * hi + lo

/-- Embedding of `u16::to_be_bytes` of a `u16` value: high byte then low
byte, with the cast to `u8` made explicit as reduction mod 256. -/
def u16ToBeBytes (x : Nat) : List Nat := [x >>> 8 % 256, x % 256]

/-- Octets of an `Ipv6Addr` built from eight segments, as produced by
`Ipv6Addr::octets`: each 16-bit segment contributes its two big-endian
bytes. -/
def v6Octets (s0 s1 s2 s3 s4 s5 s6 s7 : Nat) : List Nat :=
  u16ToBeBytes s0 ++ u16ToBeBytes s1 ++ u16ToBeBytes s2 ++ u16ToBeBytes s3 ++
    u16ToBeBytes s4 ++ u16ToBeBytes s5 ++ u16ToBeBytes s6 ++ u16ToBeBytes s7

/-- Embedding of `Parse::parse_ip_port` from `src/parse.rs`.  `buf.getD i 0`
stands for `buf[i]`, which the preceding length check keeps in bounds; the
`(buf[2i] as u16) << 8 | buf[2i+1] as u16` segment expressions use the same
shift and bitwise-or on `Nat`. -/
def Parse.parse_ip_port (buf : List Nat) (atyp : Nat) : Option (AddrPort × Nat) :=
  if atyp = 0x01 then
    if buf.length < 6 then none
    else
      some (.V4 (buf.getD 0 0) (buf.getD 1 0) (buf.getD 2 0) (buf.getD 3 0)
        (u16FromBeBytes (buf.getD 4 0) (buf.getD 5 0)), 6)
  else if atyp = 0x04 then
    if buf.length < 18 then none
    else
      some (.V6
        (buf.getD 0 0 <<< 8 ||| buf.getD 1 0)
        (buf.getD 2 0 <<< 8 ||| buf.getD 3 0)
        (buf.getD 4 0 <<< 8 ||| buf.getD 5 0)
        (buf.getD 6 0 <<< 8 ||| buf.getD 7 0)
        (buf.getD 8 0 <<< 8 ||| buf.getD 9 0)
        (buf.getD 10 0 <<< 8 ||| buf.getD 11 0)
        (buf.getD 12 0 <<< 8 ||| buf.getD 13 0)
        (buf.getD 14 0 <<< 8 ||| buf.getD 15 0)
        (u16FromBeBytes (buf.getD 16 0) (buf.getD 17 0)), 18)
  else none

/-- Embedding of `ATYP` from `src/lib.rs`. -/
inductive ATYP : Type where
  | V4
  | DomainName
  | V6
  deriving DecidableEq, Repr

/-- Embedding of the `repr(u8)` discriminants of `ATYP`. -/
def ATYP.to_u8 : ATYP → Nat
  | .V4 => 0x01
  | .DomainName => 0x03
  | .V6 => 0x04

/-- Embedding of `CMD` from `src/conn/request.rs`. -/
inductive CMD : Type where
  | Connect
  | Bind
  | UdpAssociate
  deriving DecidableEq, Repr

/-- Embedding of the `repr(u8)` discriminants of `CMD`. -/
def CMD.to_u8 : CMD → Nat
  | .Connect => 0x01
  | .Bind => 0x02
  | .UdpAssociate => 0x03

/-- Embedding of `Rep` from `src/conn/reply.rs`. -/
inductive Rep : Type where
  | Succeeded
  | GeneralFailure
  | ConnectionNotAllowed
  | NetworkUnreachable
  | HostUnreachable
  | ConnectionRefused
  | TTLExpired
  | CommandNotSupported
  | AddressTypeNotSupported
  deriving DecidableEq, Repr

/-- Result of a decoder that can also panic in Rust (an out-of-bounds index
aborts instead of returning `Err`). -/
inductive DecodeResult (ε α : Type) : Type where
  | ok (val : α)
  | err (e : ε)
  | panicked
  deriving DecidableEq, Repr

/-- Embedding of `ConnRequest` from `src/conn/request.rs`. -/
structure ConnRequest : Type where
  ver : Nat
  cmd : CMD
  rsv : Nat
  atyp : ATYP
  dst : AddrPort
  deriving DecidableEq, Repr

/-- Encoding of the trailing address-and-port field shared by
`ConnRequest::to_bytes` and `ConnReply::to_bytes`: the `match` on the
`AddrPort` value.  `name.len() as u8` is the cast made explicit as reduction
mod 256. -/
def AddrPort.encode : AddrPort → List Nat
  | .V4 o0 o1 o2 o3 port => [o0, o1, o2, o3] ++ u16ToBeBytes port
  | .V6 s0 s1 s2 s3 s4 s5 s6 s7 port =>
    v6Octets s0 s1 s2 s3 s4 s5 s6 s7 ++ u16ToBeBytes port
  | .Domain name port => name.length % 256 :: name ++ u16ToBeBytes port

/-- Embedding of `ConnRequest::to_bytes` from `src/conn/request.rs`. -/
def ConnRequest.to_bytes (r : ConnRequest) : List Nat :=
  [r.ver, r.cmd.to_u8, r.rsv, r.atyp.to_u8] ++ r.dst.encode

/-- Embedding of `ConnRequest::try_from(&[u8])` from `src/conn/request.rs`.
`buf.getD i 0` stands for `buf[i]` where the Rust index is in bounds.  In the
domain arm the Rust code reads `buf[4]` before any further length check; when
the buffer has exactly 4 bytes that index is out of bounds and the Rust code
panics, which the `panicked` result records. -/
def ConnRequest.tryFrom (buf : List Nat) : DecodeResult SocksError ConnRequest :=
  if buf.length < 4 then .err .ConnRequestTooShort
  else
    let ver := buf.getD 0 0
    let cmdOpt : Option CMD :=
      if buf.getD 1 0 = 0x01 then some .Connect
      else if buf.getD 1 0 = 0x02 then some .Bind
      else if buf.getD 1 0 = 0x03 then some .UdpAssociate
      else none
    match cmdOpt with
    | none => .err (.UnsupportedCommand (buf.getD 1 0))
    | some cmd =>
      let rsv := buf.getD 2 0
      let atypOpt : Option ATYP :=
        if buf.getD 3 0 = 0x01 then some .V4
        else if buf.getD 3 0 = 0x03 then some .DomainName
        else if buf.getD 3 0 = 0x04 then some .V6
        else none
      match atypOpt with
      | none => .err (.InvalidAddressType (buf.getD 3 0))
      | some atyp =>
        match atyp with
        | .V4 =>
          match Parse.parse_ip_port (buf.drop 4) 0x01 with
          | none => .err .ConnRequestTooShort
          | some (ipPort, _) =>
            match ipPort with
            | .V4 o0 o1 o2 o3 p => .ok ⟨ver, cmd, rsv, .V4, .V4 o0 o1 o2 o3 p⟩
            | _ => .err (.InvalidAddressType 0x01)
        | .V6 =>
          match Parse.parse_ip_port (buf.drop 4) 0x04 with
          | none => .err .ConnRequestTooShort
          | some (ipPort, _) =>
            match ipPort with
            | .V6 s0 s1 s2 s3 s4 s5 s6 s7 p =>
              .ok ⟨ver, cmd, rsv, .V6, .V6 s0 s1 s2 s3 s4 s5 s6 s7 p⟩
            | _ => .err (.InvalidAddressType 0x04)
        | .DomainName =>
          if 4 < buf.length then
            let len := buf.getD 4 0
            if buf.length < 5 + len + 2 then .err .InvalidDomain
            else
              let domain := utf8Lossy ((buf.drop 5).take len)
              let port := u16FromBeBytes (buf.getD (5 + len) 0)
                (buf.getD (5 + len + 1) 0)
              .ok ⟨ver, cmd, rsv, .DomainName, .Domain domain port⟩
          else .panicked

/-- Embedding of `ConnReply` from `src/conn/reply.rs`. -/
structure ConnReply : Type where
  ver : Nat
  rep : Rep
  rsv : Nat
  atyp : ATYP
  bnd : AddrPort
  deriving DecidableEq, Repr

/-- Embedding of `ConnReply::to_bytes` from `src/conn/reply.rs`. -/
def ConnReply.to_bytes (r : ConnReply) : List Nat :=
  r.ver :: repByte r.rep :: r.rsv :: r.atyp.to_u8 :: r.bnd.encode
where
  /-- The `repr(u8)` discriminants of `Rep` (`self.rep as u8`). -/
  repByte : Rep → Nat
  | .Succeeded => 0x00
  | .GeneralFailure => 0x01
  | .ConnectionNotAllowed => 0x02
  | .NetworkUnreachable => 0x03
  | .HostUnreachable => 0x04
  | .ConnectionRefused => 0x05
  | .TTLExpired => 0x06
  | .CommandNotSupported => 0x07
  | .AddressTypeNotSupported => 0x08

/-- Embedding of `ConnReply::try_from(&[u8])` from `src/conn/reply.rs`.  The
Rust impl fails with `anyhow` string errors; the formatted arguments of each
message are omitted and only its static text is kept.  As in
`ConnRequest::try_from`, the domain arm reads `buf[4]` before any further
length check, so a 4-byte buffer panics. -/
def ConnReply.tryFrom (buf : List Nat) : DecodeResult String ConnReply :=
  if buf.length < 4 then .err "Initial lenght cannot be smaller than 4"
  else
    let ver := buf.getD 0 0
    let repOpt : Option Rep :=
      if buf.getD 1 0 = 0x00 then some .Succeeded
      else if buf.getD 1 0 = 0x01 then some .GeneralFailure
      else if buf.getD 1 0 = 0x02 then some .ConnectionNotAllowed
      else if buf.getD 1 0 = 0x03 then some .NetworkUnreachable
      else if buf.getD 1 0 = 0x04 then some .HostUnreachable
      else if buf.getD 1 0 = 0x05 then some .ConnectionRefused
      else if buf.getD 1 0 = 0x06 then some .TTLExpired
      else if buf.getD 1 0 = 0x07 then some .CommandNotSupported
      else if buf.getD 1 0 = 0x08 then some .AddressTypeNotSupported
      else none
    match repOpt with
    | none => .err "Invalid value for REP"
    | some rep =>
      let rsv := buf.getD 2 0
      let atypOpt : Option ATYP :=
        if buf.getD 3 0 = 0x01 then some .V4
        else if buf.getD 3 0 = 0x03 then some .DomainName
        else if buf.getD 3 0 = 0x04 then some .V6
        else none
      match atypOpt with
      | none => .err "Invalid value for ATYP"
      | some atyp =>
        match atyp with
        | .V4 =>
          match Parse.parse_ip_port (buf.drop 4) 0x01 with
          | none => .err "Cannot parse input"
          | some (ipPort, _) =>
            match ipPort with
            | .V4 o0 o1 o2 o3 p => .ok ⟨ver, rep, rsv, .V4, .V4 o0 o1 o2 o3 p⟩
            | _ => .err "Invalid V4"
        | .V6 =>
          match Parse.parse_ip_port (buf.drop 4) 0x04 with
          | none => .err "Cannot parse input"
          | some (ipPort, _) =>
            match ipPort with
            | .V6 s0 s1 s2 s3 s4 s5 s6 s7 p =>
              .ok ⟨ver, rep, rsv, .V6, .V6 s0 s1 s2 s3 s4 s5 s6 s7 p⟩
            | _ => .err "Invalid V6"
        | .DomainName =>
          if 4 < buf.length then
            let len := buf.getD 4 0
            if buf.length < 5 + len + 2 then
              .err "Size for DomainName is too short"
            else
              let domain := utf8Lossy ((buf.drop 5).take len)
              let port := u16FromBeBytes (buf.getD (5 + len) 0)
                (buf.getD (5 + len + 1) 0)
              .ok ⟨ver, rep, rsv, .DomainName, .Domain domain port⟩
          else .panicked

/-- The negotiation-relevant configuration of the `Socks5` server struct from
`src/lib.rs`: the `allow_no_auth` flag and the optional username/password
validator closure (the `listener` field is transport state outside the
protocol core). -/
structure ServerConfig : Type where
  allow_no_auth : Bool
  userpass_validator : Option (List Nat → List Nat → Bool)

/-- The method-selection policy inside `Socks5::authenticate`
(`src/lib.rs`): `selected` starts as `NoAcceptable` and is reassigned by the
`if` / `else if` chain on the configuration and the proposed method list. -/
def selectMethod (cfg : ServerConfig) (version_msg : VersionMessage) : Method :=
  if cfg.allow_no_auth ∧ version_msg.methods.contains (.Fixed .NoAuth) then
    .Fixed .NoAuth
  else if cfg.userpass_validator.isSome ∧
      version_msg.methods.contains (.Fixed .UsePass) then
    .Fixed .UsePass
  else .Fixed .NoAcceptable

/-- Embedding of `Socks5::authenticate` from `src/lib.rs`.  The two stream
reads are modelled by the byte buffers they deliver (`buf1` for the version
message, `buf2` for the auth request); the returned list collects, in order,
the byte strings passed to `write_all`.  The `unwrap()` of the validator in
the `UsePass` arm is modelled by the `panicked` outcome when the validator is
absent (unreachable, since `UsePass` is only selected when it is present). -/
def authenticate (cfg : ServerConfig) (buf1 buf2 : List Nat) :
    List (List Nat) × DecodeResult SocksError Unit :=
  match VersionMessage.tryFrom buf1 with
  | .error e => ([], .err e)
  | .ok version_msg =>
    let selected := selectMethod cfg version_msg
    let selBytes := (MethodSelection.new selected).to_bytes
    match selected with
    | .Fixed .NoAuth => ([selBytes], .ok ())
    | .Fixed .UsePass =>
      match AuthRequest.tryFrom buf2 with
      | .error e => ([selBytes], .err e)
      | .ok auth_req =>
        match cfg.userpass_validator with
        | some validator =>
          if validator auth_req.uname auth_req.passwd then
            ([selBytes, (AuthReply.new .Success).to_bytes], .ok ())
          else
            ([selBytes, (AuthReply.new .Failure).to_bytes],
              .err (.AuthFailed "invalid credentials"))
        | none => ([selBytes], .panicked)
    | _ => ([selBytes], .err (.AuthFailed "no acceptable method"))

/-- Tag of an address value: the `ATYP` byte variant a correctly encoded
message carrying this address uses (spec wording: `tag(a)`). -/
def tagOf : AddrPort → ATYP
  | .V4 .. => .V4
  | .V6 .. => .V6
  | .Domain .. => .DomainName

/-- Whether an address-type tag and an address payload agree (spec wording
for claim C10). -/
def atypMatches : ATYP → AddrPort → Bool
  | .V4, .V4 .. => true
  | .V6, .V6 .. => true
  | .DomainName, .Domain .. => true
  | _, _ => false

/-- Well-formedness of an address value as the Rust types enforce it:
octets are `u8`, IPv6 segments and ports are `u16`, a domain name is a
`String` (valid UTF-8) whose length fits the one-byte length prefix with at
least one byte. -/
def wellFormedAddr : AddrPort → Prop
  | .V4 o0 o1 o2 o3 port =>
    o0 < 256 ∧ o1 < 256 ∧ o2 < 256 ∧ o3 < 256 ∧ port < 65536
  | .V6 s0 s1 s2 s3 s4 s5 s6 s7 port =>
    s0 < 65536 ∧ s1 < 65536 ∧ s2 < 65536 ∧ s3 < 65536 ∧ s4 < 65536 ∧
      s5 < 65536 ∧ s6 < 65536 ∧ s7 < 65536 ∧ port < 65536
  | .Domain name port =>
    1 ≤ name.length ∧ name.length ≤ 255 ∧ IsBytes name ∧
      utf8Valid name = true ∧ port < 65536

/-- Bitwise bridge: assembling a high byte and a low byte with shift and or
equals the big-endian value, when the low part fits in one byte. -/
theorem shl8_lor_eq (hi lo : Nat) (h : lo < 256) : hi <<< 8 ||| lo = 256 * hi + lo := by
  apply Nat.eq_of_testBit_eq
  intro i
  rw [Nat.testBit_lor, Nat.testBit_shiftLeft]
  rcases Nat.lt_or_ge i 8 with hl | hl
  · have h1 : decide (i ≥ 8) = false := by simp; omega
    rw [h1]
    simp only [Bool.false_and, Bool.false_or]
    rw [Nat.testBit_to_div_mod, Nat.testBit_to_div_mod]
    have h2 : 256 * hi + lo = lo + 2 ^ i * (2 ^ (8 - i) * hi) := by
      rw [← Nat.mul_assoc, ← Nat.pow_add]
      have h3 : i + (8 - i) = 8 := by omega
      rw [h3]; ring
    rw [h2, Nat.add_mul_div_left _ _ (Nat.pos_pow_of_pos i (by norm_num))]
    have h4 : 2 ^ (8 - i) * hi = 2 * (2 ^ (8 - i - 1) * hi) := by
      rw [← Nat.mul_assoc, ← Nat.pow_succ']
      congr 2
      omega
    rw [h4, Nat.add_mul_mod_self_left]
  · have h1 : decide (i ≥ 8) = true := by simp; omega
    rw [h1]
    simp only [Bool.true_and]
    have hlo : lo.testBit i = false := by
      apply Nat.testBit_eq_false_of_lt
      calc lo < 256 := h
        _ = 2 ^ 8 := by norm_num
        _ ≤ 2 ^ i := Nat.pow_le_pow_right (by norm_num) hl
    rw [hlo, Bool.or_false]
    rw [Nat.testBit_to_div_mod, Nat.testBit_to_div_mod]
    congr 1
    have h5 : 2 ^ i = 2 ^ 8 * 2 ^ (i - 8) := by
      rw [← Nat.pow_add]; congr 1; omega
    rw [h5, ← Nat.div_div_eq_div_mul]
    congr 2
    have h6 : 256 * hi + lo = lo + 2 ^ 8 * hi := by ring
    rw [h6, Nat.add_mul_div_left _ _ (by norm_num : (0:Nat) < 2 ^ 8)]
    rw [Nat.div_eq_of_lt (by norm_num [h] : lo < 2 ^ 8)]
    simp

set_option maxRecDepth 4096 in
/-- Decoding then re-encoding a method byte is the identity on the `u8`
domain (helper shared by several claims). -/
theorem from_u8_map_to_u8 : ∀ b : Nat, b < 256 →
    (Method.from_u8 b).map Method.to_u8 = Except.ok b := by
  decide

/-- Existential form of `from_u8_map_to_u8`. -/
theorem from_u8_ok (b : Nat) (hb : b < 256) :
    ∃ m, Method.from_u8 b = .ok m ∧ m.to_u8 = b := by
  have h := from_u8_map_to_u8 b hb
  cases hm : Method.from_u8 b with
  | error e => rw [hm] at h; simp [Except.map] at h
  | ok m =>
    rw [hm] at h
    simp [Except.map] at h
    exact ⟨m, rfl, h⟩

/-- Mapping `Method::from_u8` over a list of bytes never fails and is
inverted pointwise by `Method::to_u8`. -/
theorem mapM_from_u8_ok : ∀ l : List Nat, IsBytes l →
    ∃ ms, l.mapM Method.from_u8 = .ok ms ∧ ms.map Method.to_u8 = l := by
  intro l
  induction l with
  | nil => intro _; exact ⟨[], rfl, rfl⟩
  | cons b l ih =>
    intro h
    obtain ⟨m, hm, hmb⟩ := from_u8_ok b (h b (List.mem_cons_self b l))
    obtain ⟨ms, hms, hmsb⟩ := ih (fun x hx => h x (List.mem_cons_of_mem b hx))
    refine ⟨m :: ms, ?_, ?_⟩
    · rw [List.mapM_cons, hm, hms]; rfl
    · simp [hmb, hmsb]

/-- Claim C6: the method byte codec is a total bijection.  For every byte
`b` in `0x00 ..= 0xFF`, `Method::from_u8 b` succeeds and `Method::to_u8`
maps the result back to `b`; moreover `0x00`, `0x01`, `0x02` and `0xFF` map
to the corresponding `Fixed` variants, `0x03 ..= 0x7F` maps to
`IanaAssigned b`, and `0x80 ..= 0xFE` maps to `Private b`. -/
theorem claim_C6_method_codec_bijection (b : Nat) (hb : b < 256) :
    (Method.from_u8 b).map Method.to_u8 = Except.ok b ∧
    (b = 0x00 → Method.from_u8 b = .ok (.Fixed .NoAuth)) ∧
    (b = 0x01 → Method.from_u8 b = .ok (.Fixed .GssApi)) ∧
    (b = 0x02 → Method.from_u8 b = .ok (.Fixed .UsePass)) ∧
    (b = 0xFF → Method.from_u8 b = .ok (.Fixed .NoAcceptable)) ∧
    (0x03 ≤ b → b ≤ 0x7F → Method.from_u8 b = .ok (.IanaAssigned b)) ∧
    (0x80 ≤ b → b ≤ 0xFE → Method.from_u8 b = .ok (.Private b)) := by
  refine ⟨from_u8_map_to_u8 b hb, ?_, ?_, ?_, ?_, ?_, ?_⟩ <;>
    (intros; unfold Method.from_u8; split_ifs <;> first | rfl | omega)

/-- Witness for claim C6 at the IANA-range byte `0x42`. -/
theorem claim_C6_method_codec_bijection_witness :
    (Method.from_u8 0x42).map Method.to_u8 = Except.ok 0x42 :=
  (claim_C6_method_codec_bijection 0x42 (by decide)).1

/-- Claim C1: the method-selection policy of `Socks5::authenticate`.  For
every configuration and decoded version message: if no-auth is allowed and
`NoAuth` is proposed anywhere in the method list, `NoAuth` is selected
(regardless of the order of the proposals); otherwise if a validator is
configured and `UsePass` is proposed, `UsePass` is selected; otherwise
`NoAcceptable` is selected. -/
theorem claim_C1_method_selection_policy (cfg : ServerConfig) (vm : VersionMessage) :
    (cfg.allow_no_auth = true ∧ vm.methods.contains (.Fixed .NoAuth) = true →
      selectMethod cfg vm = .Fixed .NoAuth) ∧
    (¬(cfg.allow_no_auth = true ∧ vm.methods.contains (.Fixed .NoAuth) = true) →
      cfg.userpass_validator.isSome = true ∧
        vm.methods.contains (.Fixed .UsePass) = true →
      selectMethod cfg vm = .Fixed .UsePass) ∧
    (¬(cfg.allow_no_auth = true ∧ vm.methods.contains (.Fixed .NoAuth) = true) →
      ¬(cfg.userpass_validator.isSome = true ∧
        vm.methods.contains (.Fixed .UsePass) = true) →
      selectMethod cfg vm = .Fixed .NoAcceptable) := by
  refine ⟨?_, ?_, ?_⟩ <;>
    (intros; unfold selectMethod; split_ifs <;> simp_all)

/-- Witness for claim C1: with both capabilities enabled (validator
accepting only the admin credentials) and both methods proposed, `NoAuth`
wins even though the client listed `UsePass` first. -/
theorem claim_C1_method_selection_policy_witness :
    selectMethod
      ⟨true, some (fun u p =>
        u == [97, 100, 109, 105, 110] && p == [97, 100, 109, 105, 110])⟩
      ⟨5, [.Fixed .UsePass, .Fixed .NoAuth]⟩ = .Fixed .NoAuth :=
  (claim_C1_method_selection_policy _ _).1 ⟨rfl, by decide⟩

/-- Claim C4: the `VersionMessage` decode contract.  For every byte buffer:
decoding fails with the too-short error exactly when the buffer has fewer
than 2 bytes; fails with the unsupported-version error exactly when it has
at least 2 bytes and byte 0 is not 5; fails with the incomplete-message
error exactly when byte 0 is 5 but the length is less than `2 + nmethods`
(`nmethods` = byte 1); and otherwise succeeds, returning the `nmethods`
decoded methods in order (their images under `to_u8` are exactly the
`nmethods` method bytes, in order). -/
theorem claim_C4_version_message_decode (bytes : List Nat) (hb : IsBytes bytes) :
    (bytes.length < 2 →
      VersionMessage.tryFrom bytes = .error .VersionMessageTooShort) ∧
    (2 ≤ bytes.length → bytes.getD 0 0 ≠ 5 →
      VersionMessage.tryFrom bytes =
        .error (.UnsupportedVersion (bytes.getD 0 0))) ∧
    (2 ≤ bytes.length → bytes.getD 0 0 = 5 →
      bytes.length < 2 + bytes.getD 1 0 →
      VersionMessage.tryFrom bytes = .error .IncompleteVersionMessage) ∧
    (2 ≤ bytes.length → bytes.getD 0 0 = 5 →
      2 + bytes.getD 1 0 ≤ bytes.length →
      ∃ ms, VersionMessage.tryFrom bytes = .ok ⟨5, ms⟩ ∧
        ms.map Method.to_u8 = (bytes.drop 2).take (bytes.getD 1 0)) := by
  rcases bytes with _ | ⟨b0, _ | ⟨b1, rest⟩⟩
  · exact ⟨fun _ => rfl, by simp, by simp, by simp⟩
  · exact ⟨fun _ => rfl, by simp, by simp, by simp⟩
  · refine ⟨by simp, ?_, ?_, ?_⟩
    · intro _ h
      simp only [List.getD_cons_zero] at h ⊢
      simp [VersionMessage.tryFrom, h]
    · intro _ h5 hlt
      simp only [List.getD_cons_zero, List.getD_cons_succ] at h5 hlt ⊢
      subst h5
      simp only [List.length_cons] at hlt
      have hrest : rest.length < b1 := by omega
      simp [VersionMessage.tryFrom, hrest]
    · intro _ h5 hge
      simp only [List.getD_cons_zero, List.getD_cons_succ] at h5 hge ⊢
      subst h5
      simp only [List.length_cons] at hge
      have hbytes : IsBytes (rest.take b1) := by
        intro x hx
        exact hb x (List.mem_cons_of_mem _ (List.mem_cons_of_mem _
          (List.mem_of_mem_take hx)))
      obtain ⟨ms, hms, hmsb⟩ := mapM_from_u8_ok (rest.take b1) hbytes
      refine ⟨ms, ?_, by simpa using hmsb⟩
      have hrest : ¬ rest.length < b1 := by omega
      simp only [VersionMessage.tryFrom, ne_eq, not_true_eq_false, if_false,
        if_neg hrest]
      rw [hms]
      rfl

/-- Witness for claim C4 at the spec example `[5, 3, 0]`, which declares
three methods but carries only one byte and is rejected as incomplete. -/
theorem claim_C4_version_message_decode_witness :
    VersionMessage.tryFrom [5, 3, 0] = .error .IncompleteVersionMessage :=
  (claim_C4_version_message_decode [5, 3, 0] (by decide)).2.2.1
    (by decide) (by decide) (by decide)

/-- Claim C2: authentication outcome semantics of `Socks5::authenticate`.
When `UsePass` has been selected and the auth request decodes: a validator
accepting the credentials makes the engine write the success reply
`[0x01, 0x00]` and return success; a rejecting validator makes it write the
failure reply `[0x01, 0x01]` (the reply is recorded in the write trace, so
it is on the wire before the error return) and then return the
authentication-failed error.  A malformed auth message instead returns the
decode error with no auth reply written at all (the write trace holds only
the method-selection bytes). -/
theorem claim_C2_auth_outcome (cfg : ServerConfig) (buf1 buf2 : List Nat)
    (vm : VersionMessage) (v : List Nat → List Nat → Bool)
    (h1 : VersionMessage.tryFrom buf1 = .ok vm)
    (h2 : selectMethod cfg vm = .Fixed .UsePass)
    (h3 : cfg.userpass_validator = some v) :
    (∀ req, AuthRequest.tryFrom buf2 = .ok req →
      (v req.uname req.passwd = true →
        authenticate cfg buf1 buf2 = ([[5, 2], [1, 0]], .ok ())) ∧
      (v req.uname req.passwd = false →
        authenticate cfg buf1 buf2 =
          ([[5, 2], [1, 1]], .err (.AuthFailed "invalid credentials")))) ∧
    (∀ e, AuthRequest.tryFrom buf2 = .error e →
      authenticate cfg buf1 buf2 = ([[5, 2]], .err e)) := by
  constructor
  · intro req hreq
    constructor <;> intro hv <;>
      simp [authenticate, h1, h2, hreq, h3, hv, MethodSelection.new,
        MethodSelection.to_bytes, AuthReply.new, AuthReply.to_bytes,
        Method.to_u8, FixedMethod.to_u8, AuthStatus.to_u8]
  · intro e he
    simp [authenticate, h1, h2, he, MethodSelection.new,
      MethodSelection.to_bytes, Method.to_u8, FixedMethod.to_u8]

/-- Witness for claim C2: the spec example with validator accepting only
admin/admin and the client sending admin/wrong is rejected on the wire
(`[1, 1]` written) and then fails with the authentication error. -/
theorem claim_C2_auth_outcome_witness :
    authenticate
      ⟨false, some (fun u p =>
        u == [97, 100, 109, 105, 110] && p == [97, 100, 109, 105, 110])⟩
      [5, 1, 2] [1, 5, 97, 100, 109, 105, 110, 5, 119, 114, 111, 110, 103] =
      ([[5, 2], [1, 1]], .err (.AuthFailed "invalid credentials")) :=
  ((claim_C2_auth_outcome _ _ _ ⟨5, [.Fixed .UsePass]⟩ _ (by decide) (by decide)
      rfl).1 ⟨1, [97, 100, 109, 105, 110], [119, 114, 111, 110, 103]⟩
      (by decide)).2 (by decide)

/-- Claim C5: the `AuthRequest` decode contract.  For every byte buffer:
fewer than 2 bytes fails with the too-short error; byte 0 different from 1
fails with the unsupported-auth-version error; a buffer shorter than
`2 + ulen + 1` (`ulen` = byte 1) or shorter than `2 + ulen + 1 + plen`
(`plen` = the byte at offset `2 + ulen`) fails with the respective
truncation error; a username or password slice that is not valid UTF-8
fails with the respective encoding error (strict rejection, no lossy
substitution); otherwise decoding returns the username and password byte
strings. -/
theorem claim_C5_auth_request_decode (bytes : List Nat) :
    (bytes.length < 2 → AuthRequest.tryFrom bytes = .error .AuthMessageTooShort) ∧
    (2 ≤ bytes.length → bytes.getD 0 0 ≠ 1 →
      AuthRequest.tryFrom bytes =
        .error (.UnsupportedAuthVersion (bytes.getD 0 0))) ∧
    (2 ≤ bytes.length → bytes.getD 0 0 = 1 →
      (bytes.length < 2 + bytes.getD 1 0 + 1 →
        AuthRequest.tryFrom bytes =
          .error (.AuthFailed "truncated before username")) ∧
      (2 + bytes.getD 1 0 + 1 ≤ bytes.length →
        (utf8Valid ((bytes.drop 2).take (bytes.getD 1 0)) = false →
          AuthRequest.tryFrom bytes =
            .error (.AuthFailed "invalid UTF-8 in username")) ∧
        (utf8Valid ((bytes.drop 2).take (bytes.getD 1 0)) = true →
          (bytes.length < 2 + bytes.getD 1 0 + 1 +
              bytes.getD (2 + bytes.getD 1 0) 0 →
            AuthRequest.tryFrom bytes =
              .error (.AuthFailed "truncated before password")) ∧
          (2 + bytes.getD 1 0 + 1 + bytes.getD (2 + bytes.getD 1 0) 0 ≤
              bytes.length →
            (utf8Valid ((bytes.drop (2 + bytes.getD 1 0 + 1)).take
                (bytes.getD (2 + bytes.getD 1 0) 0)) = false →
              AuthRequest.tryFrom bytes =
                .error (.AuthFailed "invalid UTF-8 in password")) ∧
            (utf8Valid ((bytes.drop (2 + bytes.getD 1 0 + 1)).take
                (bytes.getD (2 + bytes.getD 1 0) 0)) = true →
              AuthRequest.tryFrom bytes =
                .ok ⟨1, (bytes.drop 2).take (bytes.getD 1 0),
                  (bytes.drop (2 + bytes.getD 1 0 + 1)).take
                    (bytes.getD (2 + bytes.getD 1 0) 0)⟩))))) := by
  rcases bytes with _ | ⟨b0, _ | ⟨b1, rest⟩⟩
  · exact ⟨fun _ => rfl, by simp, by simp⟩
  · exact ⟨fun _ => rfl, by simp, by simp⟩
  · refine ⟨by simp, ?_, ?_⟩
    · intro _ h
      simp only [List.getD_cons_zero] at h ⊢
      simp [AuthRequest.tryFrom, h]
    · intro _ h1
      simp only [List.getD_cons_zero] at h1
      subst h1
      have e1 : 2 + b1 = (1 + b1) + 1 := by omega
      have hgd : (1 :: b1 :: rest).getD (2 + b1) 0 = rest.getD b1 0 := by
        rw [e1, List.getD_cons_succ, Nat.add_comm 1 b1, List.getD_cons_succ]
      have hdrop3 : (1 :: b1 :: rest).drop (2 + b1 + 1) = rest.drop (b1 + 1) := by
        rw [List.drop_succ_cons, e1, List.drop_succ_cons, Nat.add_comm 1 b1]
      have hdrop2 : (1 :: b1 :: rest).drop 2 = rest := rfl
      rw [List.getD_cons_succ, List.getD_cons_zero, hgd, hdrop2, hdrop3]
      simp only [List.length_cons]
      refine ⟨?_, ?_⟩
      · intro hlt
        have hr : rest.length < b1 + 1 := by omega
        simp [AuthRequest.tryFrom, hr]
      · intro hge
        have hr : ¬ rest.length < b1 + 1 := by omega
        refine ⟨?_, ?_⟩
        · intro hu
          simp [AuthRequest.tryFrom, hr, hu]
        · intro hu
          refine ⟨?_, ?_⟩
          · intro hlt
            have hp : rest.length < b1 + 1 + rest.getD b1 0 := by omega
            rw [List.getD_eq_getElem?_getD] at hp
            simp [AuthRequest.tryFrom, hr, hu, hp]
          · intro hge2
            have hp : ¬ rest.length < b1 + 1 + rest.getD b1 0 := by omega
            rw [List.getD_eq_getElem?_getD] at hp
            refine ⟨?_, ?_⟩
            · intro hpw
              rw [List.getD_eq_getElem?_getD] at hpw
              simp [AuthRequest.tryFrom, hr, hu, hp, hpw]
            · intro hpw
              rw [List.getD_eq_getElem?_getD] at hpw
              simp [AuthRequest.tryFrom, hr, hu, hp, hpw]

/-- Witness for claim C5: a request with version 1, username of declared
length 3 but only two bytes present, is rejected as truncated before the
username. -/
theorem claim_C5_auth_request_decode_witness :
    AuthRequest.tryFrom [1, 3, 97, 98] =
      .error (.AuthFailed "truncated before username") :=
  ((claim_C5_auth_request_decode [1, 3, 97, 98]).2.2 (by decide) (by decide)).1
    (by decide)

set_option maxHeartbeats 1000000 in
/-- Claim C10: tag and payload consistency.  Every successfully decoded
`ConnRequest` pairs its `ATYP` tag with the matching `AddrPort` variant, and
so does every successfully decoded `ConnReply`; no successful decode pairs a
tag with a mismatching address variant. -/
theorem claim_C10_tag_payload_consistency :
    (∀ buf r, ConnRequest.tryFrom buf = .ok r → atypMatches r.atyp r.dst = true) ∧
    (∀ buf r, ConnReply.tryFrom buf = .ok r → atypMatches r.atyp r.bnd = true) := by
  constructor
  · intro buf r h
    simp only [ConnRequest.tryFrom] at h
    repeat' split at h
    all_goals first
      | (cases h; rfl)
      | simp at h
  · intro buf r h
    simp only [ConnReply.tryFrom] at h
    repeat' split at h
    all_goals first
      | (cases h; rfl)
      | simp at h

/-- Witness for claim C10 on a concrete IPv4 request. -/
theorem claim_C10_tag_payload_consistency_witness :
    atypMatches ATYP.V4 (AddrPort.V4 127 0 0 1 8080) = true :=
  claim_C10_tag_payload_consistency.1 [5, 1, 0, 1, 127, 0, 0, 1, 0x1F, 0x90]
    ⟨5, .Connect, 0, .V4, .V4 127 0 0 1 8080⟩ (by decide)

set_option maxRecDepth 8192 in
/-- Claim C9: `ConnRequest` decoding validates neither the version byte nor
the reserved byte.  Whenever decoding a buffer succeeds, the version byte
(byte 0) and reserved byte (byte 2) are stored verbatim in the result, and
replacing them with arbitrary values (5 or not, zero or not) still decodes
successfully, changing only the stored `ver` and `rsv` fields; no error
variant is ever produced for these two bytes. -/
theorem claim_C9_ver_rsv_not_validated (b0 b1 b2 : Nat) (rest : List Nat)
    (r : ConnRequest)
    (h : ConnRequest.tryFrom (b0 :: b1 :: b2 :: rest) = .ok r) :
    r.ver = b0 ∧ r.rsv = b2 ∧
    ∀ v0 v2, ConnRequest.tryFrom (v0 :: b1 :: v2 :: rest) =
      .ok { r with ver := v0, rsv := v2 } := by
  have l1 : ∀ x z : Nat, (x :: b1 :: z :: rest).getD 1 0 = b1 := fun _ _ => rfl
  have l3 : ∀ x z : Nat, (x :: b1 :: z :: rest).getD 3 0 = rest.getD 0 0 :=
    fun _ _ => rfl
  have l4 : ∀ x z : Nat, (x :: b1 :: z :: rest).getD 4 0 = rest.getD 1 0 :=
    fun _ _ => rfl
  have d4 : ∀ x z : Nat, (x :: b1 :: z :: rest).drop 4 = rest.drop 1 :=
    fun _ _ => rfl
  have d5 : ∀ x z : Nat, (x :: b1 :: z :: rest).drop 5 = rest.drop 2 :=
    fun _ _ => rfl
  have hc1 : ∀ n : Nat, 5 + n = n + 5 := fun n => Nat.add_comm 5 n
  have hc2 : ∀ n : Nat, n + 5 + 1 = n + 6 := by intro n; omega
  have hc3 : ∀ n : Nat, n + 5 + 2 = n + 7 := by intro n; omega
  have p1 : ∀ x z n : Nat,
      (x :: b1 :: z :: rest).getD (n + 5) 0 = rest.getD (n + 2) 0 :=
    fun _ _ _ => rfl
  have p2 : ∀ x z n : Nat,
      (x :: b1 :: z :: rest).getD (n + 6) 0 = rest.getD (n + 3) 0 :=
    fun _ _ _ => rfl
  simp only [ConnRequest.tryFrom, l1, l3, l4, d4, d5, List.length_cons] at h
  simp only [hc1] at h
  simp only [hc2] at h
  simp only [hc3] at h
  simp only [p1, p2] at h
  repeat' split at h
  all_goals first
    | (cases h
       refine ⟨rfl, rfl, fun v0 v2 => ?_⟩
       simp only [ConnRequest.tryFrom, l1, l3, l4, d4, d5, List.length_cons]
       simp only [hc1]
       simp only [hc2]
       simp only [hc3]
       simp only [p1, p2]
       try simp_all
       try rw [if_neg (by omega), if_neg (by omega)])
    | simp at h

/-- Witness for claim C9: a request with version byte 9 and reserved byte 7
still decodes, with both bytes stored verbatim. -/
theorem claim_C9_ver_rsv_not_validated_witness :
    ConnRequest.tryFrom [9, 1, 7, 1, 127, 0, 0, 1, 0, 80] =
      .ok ⟨9, .Connect, 7, .V4, .V4 127 0 0 1 80⟩ :=
  ((claim_C9_ver_rsv_not_validated 5 1 0 [1, 127, 0, 0, 1, 0, 80]
      ⟨5, .Connect, 0, .V4, .V4 127 0 0 1 80⟩ (by decide)).2.2 9 7)

/-- Claim C8: domain-name leniency.  For every buffer with a valid command
byte, address type 0x03, and length at least `5 + len + 2` (`len` = byte 4),
decoding succeeds regardless of the domain-name byte content: the name bytes
go through lossy UTF-8 decoding, which substitutes U+FFFD for ill-formed
bytes instead of failing (in contrast to the strict UTF-8 rejection applied
to username and password in `AuthRequest`). -/
theorem claim_C8_domain_leniency (buf : List Nat)
    (hcmd : buf.getD 1 0 = 1 ∨ buf.getD 1 0 = 2 ∨ buf.getD 1 0 = 3)
    (hatyp : buf.getD 3 0 = 3)
    (hlen : 5 + buf.getD 4 0 + 2 ≤ buf.length) :
    ∃ r, ConnRequest.tryFrom buf = .ok r ∧ r.atyp = .DomainName ∧
      r.dst = .Domain (utf8Lossy ((buf.drop 5).take (buf.getD 4 0)))
        (u16FromBeBytes (buf.getD (5 + buf.getD 4 0) 0)
          (buf.getD (5 + buf.getD 4 0 + 1) 0)) := by
  have h4 : ¬ buf.length < 4 := by omega
  have h4b : 4 < buf.length := by omega
  have hd : ¬ buf.length < 5 + buf.getD 4 0 + 2 := by omega
  simp only [List.getD_eq_getElem?_getD] at hcmd hatyp hd
  have hx : buf[4]?.getD 0 = GetElem.getElem buf 4 h4b := by
    rw [List.getElem?_eq_getElem h4b]
    rfl
  have hd2 : 5 + GetElem.getElem buf 4 h4b + 2 ≤ buf.length := by
    rw [← hx]
    omega
  rcases hcmd with h1 | h1 | h1
  · exact ⟨⟨buf.getD 0 0, .Connect, buf.getD 2 0, .DomainName,
      .Domain (utf8Lossy ((buf.drop 5).take (buf.getD 4 0)))
        (u16FromBeBytes (buf.getD (5 + buf.getD 4 0) 0)
          (buf.getD (5 + buf.getD 4 0 + 1) 0))⟩,
      by simp [ConnRequest.tryFrom, h4, h4b, hd, hd2, h1, hatyp], rfl, rfl⟩
  · exact ⟨⟨buf.getD 0 0, .Bind, buf.getD 2 0, .DomainName,
      .Domain (utf8Lossy ((buf.drop 5).take (buf.getD 4 0)))
        (u16FromBeBytes (buf.getD (5 + buf.getD 4 0) 0)
          (buf.getD (5 + buf.getD 4 0 + 1) 0))⟩,
      by simp [ConnRequest.tryFrom, h4, h4b, hd, hd2, h1, hatyp], rfl, rfl⟩
  · exact ⟨⟨buf.getD 0 0, .UdpAssociate, buf.getD 2 0, .DomainName,
      .Domain (utf8Lossy ((buf.drop 5).take (buf.getD 4 0)))
        (u16FromBeBytes (buf.getD (5 + buf.getD 4 0) 0)
          (buf.getD (5 + buf.getD 4 0 + 1) 0))⟩,
      by simp [ConnRequest.tryFrom, h4, h4b, hd, hd2, h1, hatyp], rfl, rfl⟩

/-- Witness for claim C8: a domain request whose two name bytes `0xFF 0xFF`
are not valid UTF-8 still decodes successfully. -/
theorem claim_C8_domain_leniency_witness :
    ∃ r, ConnRequest.tryFrom [5, 1, 0, 3, 2, 255, 255, 0, 80] = .ok r ∧
      r.atyp = .DomainName ∧
      r.dst = .Domain
        (utf8Lossy (([5, 1, 0, 3, 2, 255, 255, 0, 80].drop 5).take
          ([5, 1, 0, 3, 2, 255, 255, 0, 80].getD 4 0)))
        (u16FromBeBytes
          ([5, 1, 0, 3, 2, 255, 255, 0, 80].getD
            (5 + [5, 1, 0, 3, 2, 255, 255, 0, 80].getD 4 0) 0)
          ([5, 1, 0, 3, 2, 255, 255, 0, 80].getD
            (5 + [5, 1, 0, 3, 2, 255, 255, 0, 80].getD 4 0 + 1) 0)) :=
  claim_C8_domain_leniency [5, 1, 0, 3, 2, 255, 255, 0, 80]
    (Or.inl (by decide)) (by decide) (by decide)

/-- Claim C3 records a divergence between the spec and the code: the
`ConnRequest` decode contract promises an invalid-domain error whenever too
few bytes remain for the domain, but on the 4-byte buffer `[5, 1, 0, 3]`
(valid length, valid command, domain address type) the Rust code reads
`buf[4]` before any further length check, which is out of bounds and
panics instead of returning an error.  This theorem evaluates the embedded
decoder at that failing input. -/
theorem claim_C3_conn_request_domain_panic :
    ConnRequest.tryFrom [5, 1, 0, 3] = .panicked := by rfl

/-- Reassembling the two big-endian bytes of a 16-bit value gives the value
back. -/
theorem be_bytes_roundtrip (x : Nat) (hx : x < 65536) :
    256 * (x >>> 8 % 256) + x % 256 = x := by
  rw [Nat.shiftRight_eq_div_pow]
  norm_num
  omega

/-- Reassembling the two big-endian bytes of a 16-bit value with shift and
bitwise or (as the IPv6 segment parsing does) gives the value back. -/
theorem seg_roundtrip (x : Nat) (hx : x < 65536) :
    (x >>> 8 % 256) <<< 8 ||| (x % 256) = x := by
  rw [shl8_lor_eq _ _ (Nat.mod_lt _ (by norm_num))]
  exact be_bytes_roundtrip x hx

/-- Claim C7: address round-trip.  For every well-formed address value
(IPv4 with any octets and 16-bit port, IPv6 with any segments and port, or
domain with a 1-to-255-byte name, boundary lengths included) and every
command, encoding a connection request carrying that address and decoding
the produced bytes returns the identical request — in particular the
identical address — so re-encoding the decoded request reproduces the
identical byte sequence. -/
theorem claim_C7_address_roundtrip (cmd : CMD) (a : AddrPort)
    (h : wellFormedAddr a) :
    ConnRequest.tryFrom (ConnRequest.to_bytes ⟨5, cmd, 0, tagOf a, a⟩) =
      .ok ⟨5, cmd, 0, tagOf a, a⟩ := by
  rcases a with ⟨o0, o1, o2, o3, p⟩ | ⟨s0, s1, s2, s3, s4, s5, s6, s7, p⟩ |
    ⟨name, p⟩
  · obtain ⟨h0, h1, h2, h3, hp⟩ := h
    cases cmd <;>
      simp [ConnRequest.to_bytes, AddrPort.encode, tagOf, ATYP.to_u8,
        CMD.to_u8, u16ToBeBytes, ConnRequest.tryFrom, Parse.parse_ip_port,
        u16FromBeBytes, be_bytes_roundtrip p hp]
  · obtain ⟨hs0, hs1, hs2, hs3, hs4, hs5, hs6, hs7, hp⟩ := h
    cases cmd <;>
      simp [ConnRequest.to_bytes, AddrPort.encode, tagOf, ATYP.to_u8,
        CMD.to_u8, u16ToBeBytes, v6Octets, ConnRequest.tryFrom,
        Parse.parse_ip_port, u16FromBeBytes, seg_roundtrip s0 hs0,
        seg_roundtrip s1 hs1, seg_roundtrip s2 hs2, seg_roundtrip s3 hs3,
        seg_roundtrip s4 hs4, seg_roundtrip s5 hs5, seg_roundtrip s6 hs6,
        seg_roundtrip s7 hs7, be_bytes_roundtrip p hp]
  · obtain ⟨hlo, hhi, hbytes, hvalid, hp⟩ := h
    have hl : name.length % 256 = name.length := Nat.mod_eq_of_lt (by omega)
    have hlossy : utf8Lossy name = name := utf8Lossy_of_valid name hvalid
    have q1 : ∀ c : Nat,
        ((5 : Nat) :: c :: 0 :: 3 :: name.length ::
          (name ++ [p >>> 8 % 256, p % 256]))[5 + name.length]?.getD 0 =
          p >>> 8 % 256 := by
      intro c
      have h5 : (5 : Nat) :: c :: 0 :: 3 :: name.length ::
          (name ++ [p >>> 8 % 256, p % 256]) =
          [5, c, 0, 3, name.length] ++ (name ++ [p >>> 8 % 256, p % 256]) :=
        rfl
      rw [h5, List.getElem?_append_right (by simp)]
      have hidx : 5 + name.length - [5, c, 0, 3, name.length].length =
          name.length := by simp
      rw [hidx, List.getElem?_append_right (Nat.le_refl name.length),
        Nat.sub_self]
      simp
    have q2 : ∀ c : Nat,
        ((c : Nat) :: 0 :: 3 :: name.length ::
          (name ++ [p >>> 8 % 256, p % 256]))[5 + name.length]?.getD 0 =
          p % 256 := by
      intro c
      have h4 : (c : Nat) :: 0 :: 3 :: name.length ::
          (name ++ [p >>> 8 % 256, p % 256]) =
          [c, 0, 3, name.length] ++ (name ++ [p >>> 8 % 256, p % 256]) :=
        rfl
      rw [h4, List.getElem?_append_right (by simp; omega)]
      have hidx : 5 + name.length - [c, 0, 3, name.length].length =
          name.length + 1 := by simp; omega
      rw [hidx, List.getElem?_append_right (by omega)]
      have hnm : name.length + 1 - name.length = 1 := by omega
      rw [hnm]
      simp
    have c1 : ¬ (name.length + 2 + 1 + 1 + 1 + 1 + 1 < 4) := by omega
    have c2 : ¬ (name.length + 2 + 1 + 1 + 1 < 5 + name.length) := by omega
    cases cmd <;>
    · simp only [ConnRequest.to_bytes, AddrPort.encode, tagOf, ATYP.to_u8,
        CMD.to_u8, u16ToBeBytes, hl, List.cons_append]
      simp [ConnRequest.tryFrom, hlossy, u16FromBeBytes, q1, q2, c1, c2,
        be_bytes_roundtrip p hp]
/-- Witness for claim C7 at the spec example: a CONNECT request for
`example.com`, port 80, decodes back to the identical request. -/
theorem claim_C7_address_roundtrip_witness :
    ConnRequest.tryFrom (ConnRequest.to_bytes ⟨5, .Connect, 0,
      tagOf (.Domain [101, 120, 97, 109, 112, 108, 101, 46, 99, 111, 109] 80),
      .Domain [101, 120, 97, 109, 112, 108, 101, 46, 99, 111, 109] 80⟩) =
      .ok ⟨5, .Connect, 0,
        tagOf (.Domain [101, 120, 97, 109, 112, 108, 101, 46, 99, 111, 109] 80),
        .Domain [101, 120, 97, 109, 112, 108, 101, 46, 99, 111, 109] 80⟩ :=
  claim_C7_address_roundtrip .Connect
    (.Domain [101, 120, 97, 109, 112, 108, 101, 46, 99, 111, 109] 80)
    ⟨by decide, by decide, by decide, by decide, by decide⟩

end Socks5
